import Mathlib

/-!
Shallow embedding of TagLib's implicitly shared list
(taglib/toolkit/tlist.h).

A List<T> value is a shared_ptr handle (here: a natural-number id) into a
heap of ListPrivate allocations.  Each allocation is paired with its
shared_ptr use count.  Every public operation of List<T> is translated to a
function on (Heap, handle); reference counting (copy construction, copy
assignment, destruction) is made explicit, exactly as shared_ptr performs it.
-/

namespace TagLib

/-- The private store of a list: the autoDelete flag inherited from
ListPrivateBase (default-initialized to false by the member initializer) and
the std::list of elements. -/
structure ListPrivate (α : Type) where
  autoDelete : Bool
  list : List α
deriving DecidableEq

/-- A heap cell: one ListPrivate allocation together with the use count of
the shared_ptr control block that owns it.  A cell with useCount 0 is dead
(deallocated or never allocated). -/
structure Cell (α : Type) where
  store : ListPrivate α
  useCount : Nat
deriving DecidableEq

/-- A dead cell: no allocation lives at this address. -/
def deadCell (α : Type) : Cell α := ⟨⟨false, []⟩, 0⟩

/-- The heap of ListPrivate allocations: the cell at each address, and the
next fresh address. -/
structure Heap (α : Type) where
  cells : Nat → Cell α
  next : Nat

/-- The heap of a program that has not allocated any list yet. -/
def emptyHeap (α : Type) : Heap α := ⟨fun _ => deadCell α, 0⟩

/-- Overwrite the cell at address d. -/
def Heap.set (h : Heap α) (d : Nat) (c : Cell α) : Heap α :=
  ⟨fun n => if n = d then c else h.cells n, h.next⟩

/-- Allocate a fresh ListPrivate (make_shared): its use count starts at 1.
Returns the new heap and the address of the allocation. -/
def Heap.alloc (h : Heap α) (s : ListPrivate α) : Heap α × Nat :=
  (⟨fun n => if n = h.next then ⟨s, 1⟩ else h.cells n, h.next + 1⟩, h.next)

/-- shared_ptr copy: one more owner of the cell at d. -/
def Heap.incr (h : Heap α) (d : Nat) : Heap α :=
  h.set d ⟨(h.cells d).store, (h.cells d).useCount + 1⟩

/-- shared_ptr release: one fewer owner of the cell at d; when the last
owner goes away the allocation is destroyed and the cell becomes dead. -/
def Heap.decr (h : Heap α) (d : Nat) : Heap α :=
  if (h.cells d).useCount ≤ 1 then h.set d (deadCell α)
  else h.set d ⟨(h.cells d).store, (h.cells d).useCount - 1⟩

/-- Replace the ListPrivate at d, keeping the use count. -/
def Heap.modifyStore (h : Heap α) (d : Nat) (f : ListPrivate α → ListPrivate α) :
    Heap α :=
  h.set d ⟨f (h.cells d).store, (h.cells d).useCount⟩

/-- A handle is live when it points below the allocation frontier at a cell
with at least one owner. -/
def Heap.live (h : Heap α) (d : Nat) : Prop :=
  d < h.next ∧ 1 ≤ (h.cells d).useCount

instance (h : Heap α) (d : Nat) : Decidable (h.live d) := by
  unfold Heap.live; infer_instance

/-! ### The operations of List<T>, translated line by line from tlist.h -/

/-- List<T>::List(): d(std::make_shared<ListPrivate<T>>()); the default
ListPrivate has an empty list and autoDelete false. -/
def mkList (h : Heap α) : Heap α × Nat := h.alloc ⟨false, []⟩

/-- List<T>::List(std::initializer_list<T> init):
d(std::make_shared<ListPrivate<T>>(init)); autoDelete is false. -/
def mkListInit (h : Heap α) (init : List α) : Heap α × Nat :=
  h.alloc ⟨false, init⟩

/-- List<T>::List(const List<T> &) = default: shared_ptr copy construction
increments the use count and yields the same address. -/
def copyList (h : Heap α) (d : Nat) : Heap α × Nat := (h.incr d, d)

/-- List<T>::operator=(const List<T> &) = default: shared_ptr copy
assignment acquires the source store and releases the one previously held
(dOld) by this list. -/
def assignList (h : Heap α) (dOld dSrc : Nat) : Heap α × Nat :=
  ((h.incr dSrc).decr dOld, dSrc)

/-- List<T>::~List() = default: release the handle. -/
def destroyList (h : Heap α) (d : Nat) : Heap α := h.decr d

/-- List<T>::detach(): if d.use_count() > 1, rebind d to
make_shared<ListPrivate<T>>(d->list).  The ListPrivate(const std::list &)
constructor copies only the element list; the autoDelete member keeps its
default-initialized value false. -/
def detach (h : Heap α) (d : Nat) : Heap α × Nat :=
  if 1 < (h.cells d).useCount then
    (h.decr d).alloc ⟨false, (h.cells d).store.list⟩
  else (h, d)

/-- List<T>::append(const T &): detach(); d->list.push_back(item). -/
def append (h : Heap α) (d : Nat) (x : α) : Heap α × Nat :=
  let p := detach h d
  (p.1.modifyStore p.2 (fun s => ⟨s.autoDelete, s.list ++ [x]⟩), p.2)

/-- List<T>::erase(Iterator it): d->list.erase(it) with no detach; an
iterator is modelled as a position index.  Returns the heap together with
the position following the removed element (std::list::erase's result). -/
def eraseIt (h : Heap α) (d : Nat) (i : Nat) : Heap α × Nat :=
  (h.modifyStore d (fun s => ⟨s.autoDelete, s.list.eraseIdx i⟩), i)

/-- The loop of List<T>::sortedInsert on the element list: advance while
*it < value; then, if unique and the iterator is not end() and *it == value,
return the list unchanged; otherwise insert value before the iterator. -/
def sortedInsertPure [LinearOrder α] (l : List α) (v : α) (u : Bool) :
    List α :=
  match l with
  | [] => [v]
  | x :: xs =>
    if x < v then x :: sortedInsertPure xs v u
    else if u = true ∧ x = v then x :: xs
    else v :: x :: xs

/-- List<T>::sortedInsert(const T &, bool): detach(), then the scan-and-
insert loop on the now-owned element list. -/
def sortedInsert [LinearOrder α] (h : Heap α) (d : Nat) (v : α) (u : Bool) :
    Heap α × Nat :=
  let p := detach h d
  (p.1.modifyStore p.2 (fun s => ⟨s.autoDelete, sortedInsertPure s.list v u⟩),
   p.2)

/-- List<T>::operator[](unsigned int) (the mutable overload): advance a
begin iterator of d->list by i and return the element there; the body
performs no detach and leaves the heap untouched.  Out of range reads give
none (undefined behavior in the source). -/
def opIndexM (h : Heap α) (d : Nat) (i : Nat) :
    (Heap α × Nat) × Option α :=
  ((h, d), (h.cells d).store.list.get? i)

/-- List<T>::setAutoDelete(bool): detach(); d->autoDelete = autoDelete. -/
def setAutoDelete (h : Heap α) (d : Nat) (b : Bool) : Heap α × Nat :=
  let p := detach h d
  (p.1.modifyStore p.2 (fun s => ⟨b, s.list⟩), p.2)

/-- List<T>::autoDelete() const: return d->autoDelete. -/
def autoDelete (h : Heap α) (d : Nat) : Bool :=
  (h.cells d).store.autoDelete

/-- List<T>::size() const: static_cast<unsigned int>(d->list.size()), the
cast reducing the length modulo 2^32. -/
def size (h : Heap α) (d : Nat) : Nat :=
  (h.cells d).store.list.length % 2 ^ 32

/-- List<T>::operator==(const List<T> &) const: d->list == l.d->list,
element-wise equality of the two std::lists. -/
def listEq [DecidableEq α] (h : Heap α) (dA dB : Nat) : Bool :=
  decide ((h.cells dA).store.list = (h.cells dB).store.list)

/-- List<T>::operator!=(const List<T> &) const: d->list != l.d->list. -/
def listNe [DecidableEq α] (h : Heap α) (dA dB : Nat) : Bool :=
  decide ((h.cells dA).store.list ≠ (h.cells dB).store.list)

/-- List<T>::swap(List<T> &l): swap(d, l.d); only the two handles are
exchanged, the heap is untouched.  Returns (heap, this list's new handle,
the argument list's new handle). -/
def swapList (h : Heap α) (dThis dOther : Nat) : Heap α × Nat × Nat :=
  (h, dOther, dThis)

/-- List<T>::operator=(std::initializer_list<T> init): save
d->autoDelete; List(init).swap(*this) installs a fresh store and hands the
old one to the temporary, which releases it at the end of the statement;
then setAutoDelete restores the saved flag. -/
def assignInitList (h : Heap α) (d : Nat) (init : List α) : Heap α × Nat :=
  let b := (h.cells d).store.autoDelete
  let p := mkListInit h init
  let h2 := p.1.decr d
  setAutoDelete h2 p.2 b

/-- Building a list by an append loop: start from List<T>::List() and
append the values one at a time. -/
def ofAppendLoop (h : Heap α) (xs : List α) : Heap α × Nat :=
  xs.foldl (fun p x => append p.1 p.2 x) (mkList h)

/-! ### Heap lemma kit -/

theorem Heap.cells_set_self (h : Heap α) (d : Nat) (c : Cell α) :
    (h.set d c).cells d = c := by
  simp [Heap.set]

theorem Heap.cells_set_ne (h : Heap α) {d e : Nat} (hne : e ≠ d) (c : Cell α) :
    (h.set d c).cells e = h.cells e := by
  simp [Heap.set, hne]

theorem Heap.next_set (h : Heap α) (d : Nat) (c : Cell α) :
    (h.set d c).next = h.next := rfl

theorem Heap.alloc_snd (h : Heap α) (s : ListPrivate α) :
    (h.alloc s).2 = h.next := rfl

theorem Heap.next_alloc (h : Heap α) (s : ListPrivate α) :
    (h.alloc s).1.next = h.next + 1 := rfl

theorem Heap.cells_alloc_new (h : Heap α) (s : ListPrivate α) :
    (h.alloc s).1.cells h.next = ⟨s, 1⟩ := by
  simp [Heap.alloc]

theorem Heap.cells_alloc_ne (h : Heap α) {e : Nat} (hne : e ≠ h.next)
    (s : ListPrivate α) : (h.alloc s).1.cells e = h.cells e := by
  simp [Heap.alloc, hne]

theorem Heap.cells_incr_self (h : Heap α) (d : Nat) :
    (h.incr d).cells d = ⟨(h.cells d).store, (h.cells d).useCount + 1⟩ := by
  simp [Heap.incr, Heap.cells_set_self]

theorem Heap.cells_incr_ne (h : Heap α) {d e : Nat} (hne : e ≠ d) :
    (h.incr d).cells e = h.cells e := by
  simp [Heap.incr, Heap.cells_set_ne _ hne]

theorem Heap.next_incr (h : Heap α) (d : Nat) : (h.incr d).next = h.next := rfl

theorem Heap.cells_decr_ne (h : Heap α) {d e : Nat} (hne : e ≠ d) :
    (h.decr d).cells e = h.cells e := by
  unfold Heap.decr
  by_cases hc : (h.cells d).useCount ≤ 1 <;>
    simp [hc, Heap.cells_set_ne _ hne]

theorem Heap.next_decr (h : Heap α) (d : Nat) : (h.decr d).next = h.next := by
  unfold Heap.decr
  by_cases hc : (h.cells d).useCount ≤ 1 <;> simp [hc, Heap.next_set]

theorem Heap.cells_decr_self_of_shared (h : Heap α) {d : Nat}
    (hc : 2 ≤ (h.cells d).useCount) :
    (h.decr d).cells d = ⟨(h.cells d).store, (h.cells d).useCount - 1⟩ := by
  unfold Heap.decr
  rw [if_neg (by omega)]
  simp [Heap.cells_set_self]

theorem Heap.cells_modifyStore_self (h : Heap α) (d : Nat)
    (f : ListPrivate α → ListPrivate α) :
    (h.modifyStore d f).cells d
      = ⟨f (h.cells d).store, (h.cells d).useCount⟩ := by
  simp [Heap.modifyStore, Heap.cells_set_self]

theorem Heap.cells_modifyStore_ne (h : Heap α) {d e : Nat} (hne : e ≠ d)
    (f : ListPrivate α → ListPrivate α) :
    (h.modifyStore d f).cells e = h.cells e := by
  simp [Heap.modifyStore, Heap.cells_set_ne _ hne]

theorem Heap.next_modifyStore (h : Heap α) (d : Nat)
    (f : ListPrivate α → ListPrivate α) :
    (h.modifyStore d f).next = h.next := rfl

/-! ### detach lemmas -/

/-- On a shared store (use count at least 2), detach allocates a fresh
ListPrivate holding a copy of the element list with autoDelete false,
decrements the old count, and leaves every other cell alone. -/
theorem detach_shared (h : Heap α) {d : Nat} (hd : d < h.next)
    (hc : 2 ≤ (h.cells d).useCount) :
    (detach h d).2 = h.next ∧
    (detach h d).1.cells h.next = ⟨⟨false, (h.cells d).store.list⟩, 1⟩ ∧
    (detach h d).1.cells d
      = ⟨(h.cells d).store, (h.cells d).useCount - 1⟩ ∧
    (detach h d).1.next = h.next + 1 ∧
    ∀ e, e ≠ d → e ≠ h.next → (detach h d).1.cells e = h.cells e := by
  have hif : 1 < (h.cells d).useCount := by omega
  have hnd : d ≠ h.next := Nat.ne_of_lt hd
  unfold detach
  rw [if_pos hif]
  have hn : (h.decr d).next = h.next := Heap.next_decr h d
  refine ⟨by simp [Heap.alloc_snd, hn], ?_, ?_, ?_, ?_⟩
  · calc ((h.decr d).alloc ⟨false, (h.cells d).store.list⟩).1.cells h.next
        = ((h.decr d).alloc ⟨false, (h.cells d).store.list⟩).1.cells
            (h.decr d).next := by rw [hn]
      _ = ⟨⟨false, (h.cells d).store.list⟩, 1⟩ := Heap.cells_alloc_new _ _
  · rw [Heap.cells_alloc_ne _ (by rw [hn]; exact hnd) _]
    exact Heap.cells_decr_self_of_shared h hc
  · rw [Heap.next_alloc, hn]
  · intro e hed hen
    rw [Heap.cells_alloc_ne _ (by rw [hn]; exact hen) _,
      Heap.cells_decr_ne _ hed]

/-- On an unshared store (use count at most 1), detach is a no-op. -/
theorem detach_unshared (h : Heap α) {d : Nat}
    (hc : (h.cells d).useCount ≤ 1) : detach h d = (h, d) := by
  unfold detach
  rw [if_neg (by omega)]

/-- After detach, the resulting handle is live below the new frontier, its
element list and autoDelete-relevant count facts are as follows: the list is
unchanged, the count is at least 1, and the handle sits below next. -/
theorem detach_result (h : Heap α) {d : Nat} (hl : h.live d) :
    ((detach h d).1.cells (detach h d).2).store.list
        = (h.cells d).store.list ∧
    1 ≤ ((detach h d).1.cells (detach h d).2).useCount ∧
    (detach h d).2 < (detach h d).1.next := by
  obtain ⟨hd, hc⟩ := hl
  by_cases hsh : 2 ≤ (h.cells d).useCount
  · obtain ⟨h1, h2, _, h4, _⟩ := detach_shared h hd hsh
    refine ⟨?_, ?_, ?_⟩ <;> rw [h1] <;> simp [h2, h4]
  · rw [detach_unshared h (by omega)]
    exact ⟨rfl, hc, hd⟩

/-! ### append lemmas -/

/-- append on a shared store: the detach inside append installs a fresh
store at address h.next, the old store keeps its elements with one owner
fewer, and the new store ends with the appended element. -/
theorem append_shared (h : Heap α) {d : Nat} (x : α) (hd : d < h.next)
    (hc : 2 ≤ (h.cells d).useCount) :
    (append h d x).2 = h.next ∧
    ((append h d x).1.cells h.next).store.list
        = (h.cells d).store.list ++ [x] ∧
    ((append h d x).1.cells h.next).useCount = 1 ∧
    (append h d x).1.cells d
      = ⟨(h.cells d).store, (h.cells d).useCount - 1⟩ ∧
    (append h d x).1.next = h.next + 1 ∧
    ∀ e, e ≠ d → e ≠ h.next → (append h d x).1.cells e = h.cells e := by
  obtain ⟨h1, h2, h3, h4, h5⟩ := detach_shared h hd hc
  have hnd : d ≠ h.next := Nat.ne_of_lt hd
  refine ⟨?_, ?_, ?_, ?_, ?_, ?_⟩
  · simp only [append, h1]
  · simp only [append, h1, Heap.cells_modifyStore_self, h2]
  · simp only [append, h1, Heap.cells_modifyStore_self, h2]
  · simp only [append, h1, Heap.cells_modifyStore_ne _ hnd, h3]
  · simp only [append, h1, Heap.next_modifyStore, h4]
  · intro e hed hen
    simp only [append, h1, Heap.cells_modifyStore_ne _ hen, h5 e hed hen]

/-- append on an unshared store: no reallocation, same handle, element
pushed to the back, flag and count untouched. -/
theorem append_unshared (h : Heap α) {d : Nat} (x : α)
    (hc : (h.cells d).useCount ≤ 1) :
    append h d x
      = (h.set d ⟨⟨(h.cells d).store.autoDelete,
          (h.cells d).store.list ++ [x]⟩, (h.cells d).useCount⟩, d) := by
  unfold append
  rw [detach_unshared h hc]
  rfl

/-! ### Claim theorems -/

/-- C1: Copy independence and detach-on-write: if B is a copy of A (by copy
construction, or by copy assignment to a list that previously held a
different store) and B.append(x) is then called on a fresh element x, then
A's element sequence is unchanged, A and B no longer share a backing store,
and x appears in B's sequence but not in A's.  Both copying paths are
covered: the first conjunct is the copy-construction scenario, the second
the copy-assignment scenario. -/
theorem copy_then_append_independent {α : Type} (h : Heap α) (a b0 : Nat)
    (x : α) (hl : h.live a) (hx : x ∉ (h.cells a).store.list)
    (hb0 : b0 < h.next) (hne : b0 ≠ a) :
    (((append (copyList h a).1 (copyList h a).2 x).1.cells a).store.list
        = (h.cells a).store.list ∧
      (append (copyList h a).1 (copyList h a).2 x).2 ≠ a ∧
      x ∈ ((append (copyList h a).1 (copyList h a).2 x).1.cells
            (append (copyList h a).1 (copyList h a).2 x).2).store.list ∧
      x ∉ ((append (copyList h a).1 (copyList h a).2 x).1.cells
            a).store.list) ∧
    (((append (assignList h b0 a).1 (assignList h b0 a).2 x).1.cells
          a).store.list = (h.cells a).store.list ∧
      (append (assignList h b0 a).1 (assignList h b0 a).2 x).2 ≠ a ∧
      x ∈ ((append (assignList h b0 a).1 (assignList h b0 a).2 x).1.cells
            (append (assignList h b0 a).1 (assignList h b0 a).2 x).2).store.list ∧
      x ∉ ((append (assignList h b0 a).1 (assignList h b0 a).2 x).1.cells
            a).store.list) := by
  obtain ⟨ha, hc⟩ := hl
  constructor
  · dsimp only [copyList]
    have hca : (h.incr a).cells a
        = ⟨(h.cells a).store, (h.cells a).useCount + 1⟩ :=
      Heap.cells_incr_self h a
    have hcu : ((h.incr a).cells a).useCount = (h.cells a).useCount + 1 := by
      rw [hca]
    have hsr : ((h.incr a).cells a).store = (h.cells a).store := by rw [hca]
    have hd1 : a < (h.incr a).next := ha
    have hc1 : 2 ≤ ((h.incr a).cells a).useCount := by omega
    obtain ⟨g1, g2, g3, g4, g5, g6⟩ := append_shared (h.incr a) x hd1 hc1
    refine ⟨?_, ?_, ?_, ?_⟩
    · simp only [g4, hsr]
    · rw [g1]; exact (Nat.ne_of_lt ha).symm
    · rw [g1, g2]; simp
    · simp only [g4, hsr]; exact hx
  · dsimp only [assignList]
    have hca : ((h.incr a).decr b0).cells a
        = ⟨(h.cells a).store, (h.cells a).useCount + 1⟩ := by
      rw [Heap.cells_decr_ne _ (Ne.symm hne), Heap.cells_incr_self]
    have hcu : (((h.incr a).decr b0).cells a).useCount
        = (h.cells a).useCount + 1 := by rw [hca]
    have hsr : (((h.incr a).decr b0).cells a).store = (h.cells a).store := by
      rw [hca]
    have hn2 : ((h.incr a).decr b0).next = h.next := by
      rw [Heap.next_decr, Heap.next_incr]
    have hd2 : a < ((h.incr a).decr b0).next := by rw [hn2]; exact ha
    have hc2 : 2 ≤ (((h.incr a).decr b0).cells a).useCount := by omega
    obtain ⟨g1, g2, g3, g4, g5, g6⟩ := append_shared ((h.incr a).decr b0) x
      hd2 hc2
    refine ⟨?_, ?_, ?_, ?_⟩
    · simp only [g4, hsr]
    · rw [g1, hn2]; exact (Nat.ne_of_lt ha).symm
    · rw [g1, g2]; simp
    · simp only [g4, hsr]; exact hx

/-- A two-list heap used as a concrete input: cell 0 holds the elements
[1, 2] and cell 1 an empty list, each with one owner. -/
def heapTwo : Heap Int := (mkList (mkListInit (emptyHeap Int) [1, 2]).1).1

theorem copy_then_append_independent_witness :
    (heapTwo.live 0 ∧ (3 : Int) ∉ (heapTwo.cells 0).store.list
      ∧ 1 < heapTwo.next ∧ (1 : Nat) ≠ 0) ∧
    ((append (copyList heapTwo 0).1 (copyList heapTwo 0).2 (3 : Int)).1.cells
        0).store.list = [1, 2] := by
  refine ⟨⟨by decide, by decide, by decide, by decide⟩, ?_⟩
  have hth := copy_then_append_independent heapTwo 0 1 3 (by decide)
    (by decide) (by decide) (by decide)
  rw [hth.1.1]
  decide

/-- A heap obtained by List<int> A; A.append(1); List<int> B(A): one store
(address 0) holding [1] with use count 2, shared by A and B. -/
def heapShared : Heap Int :=
  (copyList (append (mkList (emptyHeap Int)).1 (mkList (emptyHeap Int)).2
    1).1 0).1

/-- C2: the copy-on-write invariant fails at the mutable operator[](i): in
the source its body advances an iterator of the shared std::list directly
and never calls detach(), so after building A with element list [1], B = A,
then B[0], the store B refers to still has two owners, contradicting the
claimed sole-owner invariant (which excepts only insert-at-iterator and
erase-at-iterator). -/
theorem opIndexM_leaves_store_shared :
    (heapShared.cells 0).useCount = 2 ∧
    ((opIndexM heapShared 0 0).1.1.cells
      (opIndexM heapShared 0 0).1.2).useCount = 2 ∧
    (opIndexM heapShared 0 0).1.1.next = heapShared.next ∧
    ¬ ((opIndexM heapShared 0 0).1.1.cells
        (opIndexM heapShared 0 0).1.2).useCount = 1 := by
  refine ⟨by decide, by decide, rfl, by decide⟩

/-- A heap obtained by List<int> A; A.append(1); A.setAutoDelete(true);
List<int> B(A): the store at address 0 holds [1], has autoDelete true and
use count 2. -/
def heapSharedAuto : Heap Int :=
  (copyList (setAutoDelete (append (mkList (emptyHeap Int)).1
    (mkList (emptyHeap Int)).2 1).1 0 true).1 0).1

/-- C3 counterexample: detach on a store with use count 2 and autoDelete
true yields a new store whose autoDelete flag is false: the
ListPrivate(const std::list&) constructor used by detach leaves autoDelete
default-initialized, so the flag is not carried over as claimed. -/
theorem detach_does_not_copy_autoDelete :
    autoDelete heapSharedAuto 0 = true ∧
    2 ≤ (heapSharedAuto.cells 0).useCount ∧
    autoDelete (detach heapSharedAuto 0).1 (detach heapSharedAuto 0).2
      = false := by
  refine ⟨by decide, by decide, by decide⟩

/-- C3 (amended): for every live list handle, if the store's reference
count is greater than 1, detach allocates a new store that copies the
element sequence, with the autoDelete flag reset to its default false (not
carried over), gives it a single owner, rebinds only the calling handle
(decrementing the old store's count and leaving every other cell
untouched); if the count is exactly 1, detach changes nothing. -/
theorem detach_correct {α : Type} (h : Heap α) (d : Nat) (hl : h.live d) :
    (2 ≤ (h.cells d).useCount →
      (detach h d).2 = h.next ∧
      (detach h d).1.cells h.next
        = ⟨⟨false, (h.cells d).store.list⟩, 1⟩ ∧
      (detach h d).1.cells d
        = ⟨(h.cells d).store, (h.cells d).useCount - 1⟩ ∧
      ∀ e, e ≠ d → e ≠ h.next → (detach h d).1.cells e = h.cells e) ∧
    ((h.cells d).useCount = 1 → detach h d = (h, d)) := by
  refine ⟨fun hc => ?_, fun hc => detach_unshared h (by omega)⟩
  obtain ⟨g1, g2, g3, _, g5⟩ := detach_shared h hl.1 hc
  exact ⟨g1, g2, g3, g5⟩

theorem detach_correct_witness :
    (heapSharedAuto.live 0 ∧ 2 ≤ (heapSharedAuto.cells 0).useCount) ∧
    (detach heapSharedAuto 0).2 = heapSharedAuto.next ∧
    (detach heapSharedAuto 0).1.cells heapSharedAuto.next
      = ⟨⟨false, [1]⟩, 1⟩ ∧
    (detach heapSharedAuto 0).1.cells 0 = ⟨⟨true, [1]⟩, 1⟩ := by
  refine ⟨⟨by decide, by decide⟩, ?_⟩
  have hth := (detach_correct heapSharedAuto 0 (by decide)).1 (by decide)
  refine ⟨hth.1, ?_, ?_⟩
  · rw [hth.2.1]; decide
  · rw [hth.2.2.1]; decide

/-- The sortedInsert loop in closed form: the scan stops at the first
element not less than v, i.e. at the boundary between the takeWhile and the
dropWhile of the scan predicate; if unique holds and the element at the
boundary exists and equals v the list is returned unchanged, otherwise v is
inserted at the boundary. -/
theorem sortedInsertPure_eq {α : Type} [LinearOrder α] (l : List α) (v : α)
    (u : Bool) :
    sortedInsertPure l v u =
      if u = true ∧ (l.dropWhile (fun x => decide (x < v))).head? = some v
      then l
      else l.takeWhile (fun x => decide (x < v))
        ++ v :: l.dropWhile (fun x => decide (x < v)) := by
  induction l with
  | nil => simp [sortedInsertPure]
  | cons x xs ih =>
    by_cases hx : x < v
    · have hdx : decide (x < v) = true := decide_eq_true hx
      simp only [sortedInsertPure, if_pos hx, ih, List.takeWhile_cons,
        List.dropWhile_cons, hdx, if_pos (rfl : true = true),
        if_pos (trivial : True)]
      by_cases hC : u = true
          ∧ ((xs.dropWhile fun y => decide (y < v)).head? = some v)
      · rw [if_pos hC, if_pos hC]
      · rw [if_neg hC, if_neg hC, List.cons_append]
    · have hdx : decide (x < v) = false := decide_eq_false hx
      simp only [sortedInsertPure, if_neg hx, List.takeWhile_cons,
        List.dropWhile_cons, hdx, if_neg Bool.false_ne_true,
        List.head?_cons, Option.some.injEq, List.nil_append]

/-- C4: sortedInsert on a list whose elements are in ascending order: the
operation scans to the first element not less than v; if unique is true and
that element exists and equals v, the element sequence is unchanged;
otherwise v is inserted immediately before that point.  On [1,3,5] with
unique this leaves [1,3,5] for v = 3 and yields [1,3,4,5] for v = 4 (see
the witness). -/
theorem sortedInsert_correct {α : Type} [LinearOrder α] (h : Heap α)
    (d : Nat) (v : α) (u : Bool) (hl : h.live d)
    (hs : List.Sorted (· < ·) (h.cells d).store.list) :
    ((sortedInsert h d v u).1.cells (sortedInsert h d v u).2).store.list =
      if u = true ∧ ((h.cells d).store.list.dropWhile
          (fun x => decide (x < v))).head? = some v
      then (h.cells d).store.list
      else (h.cells d).store.list.takeWhile (fun x => decide (x < v))
        ++ v :: (h.cells d).store.list.dropWhile (fun x => decide (x < v))
    := by
  obtain ⟨e1, _, _⟩ := detach_result h hl
  dsimp only [sortedInsert]
  rw [Heap.cells_modifyStore_self]
  dsimp only
  rw [e1, sortedInsertPure_eq]

/-- A one-list heap holding the sorted elements [1, 3, 5] at address 0. -/
def heap135 : Heap Int := (mkListInit (emptyHeap Int) [1, 3, 5]).1

theorem sortedInsert_correct_witness :
    (heap135.live 0 ∧ List.Sorted (· < ·) (heap135.cells 0).store.list) ∧
    ((sortedInsert heap135 0 (3 : Int) true).1.cells
      (sortedInsert heap135 0 (3 : Int) true).2).store.list = [1, 3, 5] ∧
    ((sortedInsert heap135 0 (4 : Int) true).1.cells
      (sortedInsert heap135 0 (4 : Int) true).2).store.list = [1, 3, 4, 5]
    := by
  refine ⟨⟨by decide, by decide⟩, ?_, ?_⟩
  · rw [sortedInsert_correct heap135 0 3 true (by decide) (by decide)]
    decide
  · rw [sortedInsert_correct heap135 0 4 true (by decide) (by decide)]
    decide

/-- An append loop on a store with a single owner never reallocates: the
elements accumulate in place, the handle and the use count stay fixed, and
no new store is created. -/
theorem foldl_append_unshared {α : Type} (xs : List α) (p : Heap α × Nat)
    (hc : (p.1.cells p.2).useCount = 1) :
    (xs.foldl (fun q x => append q.1 q.2 x) p).2 = p.2 ∧
    ((xs.foldl (fun q x => append q.1 q.2 x) p).1.cells p.2).store.list
        = (p.1.cells p.2).store.list ++ xs ∧
    ((xs.foldl (fun q x => append q.1 q.2 x) p).1.cells p.2).useCount = 1 ∧
    (xs.foldl (fun q x => append q.1 q.2 x) p).1.next = p.1.next := by
  induction xs generalizing p with
  | nil => exact ⟨rfl, by simp, hc, rfl⟩
  | cons x xs ih =>
    have ha := append_unshared p.1 x (le_of_eq hc)
    rw [List.foldl_cons, ha]
    have hcs := Heap.cells_set_self p.1 p.2
      ⟨⟨(p.1.cells p.2).store.autoDelete,
        (p.1.cells p.2).store.list ++ [x]⟩, (p.1.cells p.2).useCount⟩
    obtain ⟨i1, i2, i3, i4⟩ := ih (p.1.set p.2
      ⟨⟨(p.1.cells p.2).store.autoDelete,
        (p.1.cells p.2).store.list ++ [x]⟩, (p.1.cells p.2).useCount⟩, p.2)
      (by dsimp only; rw [hcs, hc])
    dsimp only at i1 i2 i3 i4
    refine ⟨i1, ?_, i3, by rw [i4]; rfl⟩
    rw [i2, hcs]
    simp

/-- C5: equality is structural: the source's operator== is true exactly
when the two element sequences are equal, regardless of store identity;
operator!= is its negation; and for every heap and every value sequence,
the list built by an append loop and the list built from an initializer
list occupy distinct stores yet compare equal. -/
theorem equality_structural {α : Type} [DecidableEq α] :
    (∀ (h : Heap α) (dA dB : Nat),
      listEq h dA dB = true ↔
        (h.cells dA).store.list = (h.cells dB).store.list) ∧
    (∀ (h : Heap α) (dA dB : Nat), listNe h dA dB = !listEq h dA dB) ∧
    (∀ (h : Heap α) (xs : List α),
      (mkListInit (ofAppendLoop h xs).1 xs).2 ≠ (ofAppendLoop h xs).2 ∧
      listEq (mkListInit (ofAppendLoop h xs).1 xs).1 (ofAppendLoop h xs).2
        (mkListInit (ofAppendLoop h xs).1 xs).2 = true) := by
  refine ⟨fun h dA dB => by simp [listEq], fun h dA dB => by
    simp [listEq, listNe, decide_not], fun h xs => ?_⟩
  have hc0 : (((mkList h).1).cells ((mkList h).2)).useCount = 1 := by
    show (((h.alloc ⟨false, []⟩).1).cells ((h.alloc ⟨false, []⟩).2)).useCount
        = 1
    rw [Heap.alloc_snd, Heap.cells_alloc_new]
  have hl0 : (((mkList h).1).cells ((mkList h).2)).store.list = [] := by
    show (((h.alloc ⟨false, []⟩).1).cells
        ((h.alloc ⟨false, []⟩).2)).store.list = []
    rw [Heap.alloc_snd, Heap.cells_alloc_new]
  obtain ⟨A2, AL, AC, AN⟩ := foldl_append_unshared xs (mkList h) hc0
  have B2 : (ofAppendLoop h xs).2 = (mkList h).2 := A2
  have BL : ((ofAppendLoop h xs).1.cells (mkList h).2).store.list
      = ((mkList h).1.cells (mkList h).2).store.list ++ xs := AL
  have BN : (ofAppendLoop h xs).1.next = (mkList h).1.next := AN
  have e3 : (mkListInit (ofAppendLoop h xs).1 xs).2
      = (ofAppendLoop h xs).1.next := rfl
  have hne2 : (ofAppendLoop h xs).2 ≠ (ofAppendLoop h xs).1.next := by
    rw [B2, BN]
    exact fun hEq => Nat.succ_ne_self h.next hEq.symm
  constructor
  · rw [e3]
    exact fun hEq => hne2 hEq.symm
  · simp only [listEq, decide_eq_true_eq, e3]
    have e4 : (mkListInit (ofAppendLoop h xs).1 xs).1
        = ((ofAppendLoop h xs).1.alloc ⟨false, xs⟩).1 := rfl
    rw [e4, Heap.cells_alloc_ne _ hne2, Heap.cells_alloc_new, B2, BL, hl0]
    simp

/-- C6: assignment from a literal element sequence always installs a fresh
store (allocated at the frontier, hence distinct from every live store)
holding exactly the given elements with a single owner, and if autoDelete
was enabled on the list before the assignment, autoDelete is enabled again
on the new store after the replacement. -/
theorem assignInit_fresh_store {α : Type} (h : Heap α) (d : Nat)
    (init : List α) (hd : d < h.next) :
    (assignInitList h d init).2 = h.next ∧
    ((assignInitList h d init).1.cells h.next).store.list = init ∧
    ((assignInitList h d init).1.cells h.next).useCount = 1 ∧
    ((h.cells d).store.autoDelete = true →
      ((assignInitList h d init).1.cells h.next).store.autoDelete = true)
    := by
  have hnd : d ≠ h.next := Nat.ne_of_lt hd
  have hcell : ((mkListInit h init).1.decr d).cells h.next
      = ⟨⟨false, init⟩, 1⟩ := by
    rw [Heap.cells_decr_ne _ (Ne.symm hnd)]
    exact Heap.cells_alloc_new h ⟨false, init⟩
  have hdet : detach ((mkListInit h init).1.decr d) h.next
      = ((mkListInit h init).1.decr d, h.next) :=
    detach_unshared _ (by rw [hcell])
  have hmain : assignInitList h d init
      = (((mkListInit h init).1.decr d).modifyStore h.next
          (fun s => ⟨(h.cells d).store.autoDelete, s.list⟩), h.next) := by
    dsimp only [assignInitList, setAutoDelete]
    rw [show (mkListInit h init).2 = h.next from rfl, hdet]
  rw [hmain, Heap.cells_modifyStore_self, hcell]
  exact ⟨rfl, rfl, rfl, fun hAD => hAD⟩

theorem assignInit_fresh_store_witness :
    (0 < heapSharedAuto.next
      ∧ (heapSharedAuto.cells 0).store.autoDelete = true) ∧
    (assignInitList heapSharedAuto 0 [(7 : Int), 8]).2
        = heapSharedAuto.next ∧
    ((assignInitList heapSharedAuto 0 [(7 : Int), 8]).1.cells
      heapSharedAuto.next).store.list = [7, 8] ∧
    ((assignInitList heapSharedAuto 0 [(7 : Int), 8]).1.cells
      heapSharedAuto.next).store.autoDelete = true := by
  have hth := assignInit_fresh_store heapSharedAuto 0 [(7 : Int), 8]
    (by decide)
  exact ⟨⟨by decide, by decide⟩, hth.1, hth.2.1, hth.2.2.2 (by decide)⟩

/-- C7: erase at a valid position performs no detach (no allocation, use
count unchanged, every other cell untouched), removes exactly the element
at that position so the sequence length decreases by exactly one, and
returns the position at which the element that followed the removed one
now sits. -/
theorem erase_correct {α : Type} (h : Heap α) (d i : Nat)
    (hi : i < (h.cells d).store.list.length) :
    (eraseIt h d i).2 = i ∧
    (eraseIt h d i).1.next = h.next ∧
    ((eraseIt h d i).1.cells d).useCount = (h.cells d).useCount ∧
    (∀ e, e ≠ d → (eraseIt h d i).1.cells e = h.cells e) ∧
    ((eraseIt h d i).1.cells d).store.list
        = (h.cells d).store.list.take i
          ++ (h.cells d).store.list.drop (i + 1) ∧
    ((eraseIt h d i).1.cells d).store.list.length
        = (h.cells d).store.list.length - 1 ∧
    ((eraseIt h d i).1.cells d).store.list[i]?
        = (h.cells d).store.list[i + 1]? := by
  have hcell : (eraseIt h d i).1.cells d
      = ⟨⟨(h.cells d).store.autoDelete,
          (h.cells d).store.list.eraseIdx i⟩, (h.cells d).useCount⟩ := by
    dsimp only [eraseIt]
    rw [Heap.cells_modifyStore_self]
  have hlen : ((h.cells d).store.list.take i).length = i := by
    rw [List.length_take]
    exact min_eq_left (le_of_lt hi)
  refine ⟨rfl, rfl, by rw [hcell], fun e he => ?_, ?_, ?_, ?_⟩
  · dsimp only [eraseIt]
    rw [Heap.cells_modifyStore_ne _ he]
  · rw [hcell]
    exact List.eraseIdx_eq_take_drop_succ _ i
  · rw [hcell]
    show ((h.cells d).store.list.eraseIdx i).length
        = (h.cells d).store.list.length - 1
    rw [List.length_eraseIdx, if_pos hi]
  · rw [hcell]
    show ((h.cells d).store.list.eraseIdx i)[i]?
        = (h.cells d).store.list[i + 1]?
    rw [List.eraseIdx_eq_take_drop_succ _ i,
      List.getElem?_append_right (le_of_eq hlen), hlen, Nat.sub_self,
      List.getElem?_drop]

theorem erase_correct_witness :
    0 < (heapTwo.cells 0).store.list.length ∧
    (eraseIt heapTwo 0 0).2 = 0 ∧
    ((eraseIt heapTwo 0 0).1.cells 0).store.list = [2] ∧
    ((eraseIt heapTwo 0 0).1.cells 0).store.list.length = 1 := by
  have hth := erase_correct heapTwo 0 0 (by decide)
  refine ⟨by decide, hth.1, ?_, ?_⟩
  · rw [hth.2.2.2.2.1]
    decide
  · rw [hth.2.2.2.2.2.1]
    decide

/-- C8: swap exchanges exactly the two store handles: the heap, and with it
every store, its elements and its use count, is untouched (so no element is
copied and no detach happens), this list receives the other list's handle
and vice versa; swapping back restores both lists and the heap exactly,
store identities included.  A result triple reads (heap, this list's new
handle, the argument list's new handle). -/
theorem swap_correct {α : Type} (h : Heap α) (a b : Nat) :
    swapList h a b = (h, b, a) ∧
    swapList (swapList h a b).1 (swapList h a b).2.2 (swapList h a b).2.1
      = (h, b, a) := ⟨rfl, rfl⟩

/-- C9: the autoDelete flag lives on the type-generic store base and is
observable for every element type: after setAutoDelete(b), the getter
autoDelete() returns b, irrespective of the element type (the flag only
ever causes deletions for pointer elements, but it is stored and read back
for all). -/
theorem setAutoDelete_observable {α : Type} (h : Heap α) (d : Nat)
    (b : Bool) :
    autoDelete (setAutoDelete h d b).1 (setAutoDelete h d b).2 = b := by
  dsimp only [setAutoDelete, autoDelete]
  rw [Heap.cells_modifyStore_self]

/-- C10: size() casts the std::list length to unsigned int, reducing it
modulo 2^32; for every length below 2^32 the returned value equals the
exact element count. -/
theorem size_truncates {α : Type} (h : Heap α) (d : Nat) :
    size h d = (h.cells d).store.list.length % 2 ^ 32 ∧
    ((h.cells d).store.list.length < 2 ^ 32 →
      size h d = (h.cells d).store.list.length) :=
  ⟨rfl, fun hlt => Nat.mod_eq_of_lt hlt⟩

theorem size_truncates_witness :
    (heapTwo.cells 0).store.list.length < 2 ^ 32 ∧ size heapTwo 0 = 2 := by
  refine ⟨by decide, ?_⟩
  rw [(size_truncates heapTwo 0).2 (by decide)]
  decide

end TagLib
